import Mathlib

/-!
Verification development for the chrono-calendar reminder service
(`src/server.js`).  The source file contains two variant implementations
of the same service:

* the PostgreSQL + `setTimeout` variant (lines 1-152): events live in an
  `events` table, a global `timers` object maps event ids to pending
  `setTimeout` handles, `scheduleReminder` registers a one-shot timer at
  `sendAt = datetime - reminder_hours * 3_600_000`, and the timer callback
  calls the Resend sender and on success marks the row `reminded = true`;
* the `events.json` + hourly cron variant (lines 153-245): events live in a
  JSON array and an hourly `cron.schedule` pass sends a reminder for every
  event with `0 < hoursLeft ≤ reminderHours` that is not yet reminded.

The PG variant is embedded as an explicit state machine (`SysState`, `Act`,
`step`, `run`).  Times are modelled as the already-parsed epoch-millisecond
values (`new Date(s).getTime()`); JavaScript numbers used for whole
milliseconds are modelled as `Int`.  The body of an `async` timer callback
(send + row update) is modelled as one atomic step, matching the intended
single-process, sequential-per-event execution.  Database operations
(`SELECT ... WHERE`, `INSERT`, `UPDATE ... WHERE`, `DELETE ... WHERE`) are
modelled as the corresponding list operations; an `INSERT` that violates the
primary key throws and is caught by the route handler, so a duplicate-id
creation leaves the state unchanged.
-/

namespace Chrono

/-- A row of the `events` table of the PG variant (`initDB`, server.js
lines 21-35).  `datetime` is stored as text and parsed with `new Date` at
scheduling time; here it is modelled as the parsed epoch milliseconds. -/
structure Event where
  id : Nat
  title : String
  datetime : Int
  reminder_hours : Int
  notes : String
  color : String
  reminded : Bool
  deriving Repr, DecidableEq

/-- A pending `setTimeout` handle: the token returned by `setTimeout`, the
event object captured by the callback closure, and the absolute time the
timeout is due (`now + msUntilSend = sendAt`). -/
structure ActiveTimer where
  token : Nat
  ev : Event
  fireAt : Int
  deriving Repr, DecidableEq

/-- The full state of the PG-variant process: the `events` table, the global
`timers` object (event id to setTimeout token, as an association list), the
set of registered-and-not-yet-fired-or-cleared timeouts, the log of sender
invocations `(event id, sender reported success)`, and a counter supplying
fresh setTimeout tokens. -/
structure SysState where
  db : List Event
  timersMap : List (Nat × Nat)
  active : List ActiveTimer
  sent : List (Nat × Bool)
  nextToken : Nat
  deriving Repr, DecidableEq

/-- Lookup in the `timers` object: `timers[id]`. -/
def lookupTok (m : List (Nat × Nat)) (i : Nat) : Option Nat :=
  (m.find? (fun p => p.1 == i)).map (fun p => p.2)

/-- Assignment `timers[id] = tok` (overwrites any previous binding). -/
def setTok (m : List (Nat × Nat)) (i : Nat) (tok : Nat) : List (Nat × Nat) :=
  (i, tok) :: m.filter (fun p => p.1 != i)

/-- `delete timers[id]`. -/
def delTok (m : List (Nat × Nat)) (i : Nat) : List (Nat × Nat) :=
  m.filter (fun p => p.1 != i)

/-- `sendAt = new Date(eventTime.getTime() - ev.reminder_hours * 3_600_000)`
(server.js lines 49-50). -/
def sendAtOf (ev : Event) : Int :=
  ev.datetime - ev.reminder_hours * 3600000

/-- `clearTimeout(tok)`: the pending timeout with this token (if any) will
never fire. -/
def clearTimeoutTok (tok : Nat) (s : SysState) : SysState :=
  { s with active := s.active.filter (fun t => t.token != tok) }

/-- `scheduleReminder(ev)` (server.js lines 48-80).  If
`msUntilSend = sendAt - now ≤ 0` the reminder is skipped (the function logs
"Skipping past reminder" and returns).  Otherwise any existing timer for
this event id is cleared and a fresh timeout due at `sendAt` is registered
under `timers[ev.id]`. -/
def scheduleReminder (now : Int) (ev : Event) (s : SysState) : SysState :=
  let msUntilSend := sendAtOf ev - now
  if msUntilSend ≤ 0 then s
  else
    let s1 := match lookupTok s.timersMap ev.id with
      | some tok => clearTimeoutTok tok s
      | none => s
    { s1 with
      timersMap := setTok s1.timersMap ev.id s1.nextToken
      active := ⟨s1.nextToken, ev, sendAtOf ev⟩ :: s1.active
      nextToken := s1.nextToken + 1 }

/-- `scheduleAllPending()` (server.js lines 40-46): `SELECT * FROM events
WHERE reminded = false`, then `scheduleReminder` for every returned row. -/
def scheduleAllPending (now : Int) (s : SysState) : SysState :=
  (s.db.filter (fun e => !e.reminded)).foldl
    (fun acc e => scheduleReminder now e acc) s

/-- `UPDATE events SET reminded = true WHERE id = $1`. -/
def markReminded (i : Nat) (db : List Event) : List Event :=
  db.map (fun e => if e.id = i then { e with reminded := true } else e)

/-- A registered timeout fires (server.js lines 64-79).  `ok` is whether the
sender call `resend.emails.send` succeeded.  The callback always performs
the sender call; on success it runs the `UPDATE ... SET reminded = true` and
`delete timers[ev.id]`; on failure (`catch`) it only logs.  Firing a token
that was cleared or has already fired is a no-op. -/
def fireTimer (tok : Nat) (ok : Bool) (s : SysState) : SysState :=
  match s.active.find? (fun t => t.token == tok) with
  | none => s
  | some t =>
    let s1 := { s with
      active := s.active.filter (fun u => u.token != tok)
      sent := (t.ev.id, ok) :: s.sent }
    if ok then
      { s1 with
        db := markReminded t.ev.id s1.db
        timersMap := delTok s1.timersMap t.ev.id }
    else s1

/-- The JSON body of `POST /events` (server.js line 102), together with the
id `Date.now()` chosen by the handler.  Optional fields that the client may
omit are `Option`s. -/
structure CreateReq where
  id : Nat
  title : String
  datetime : Int
  reminderHours : Option Int
  notes : Option String
  color : Option String
  deriving Repr, DecidableEq

/-- JavaScript `x || d` for a possibly-absent number: `undefined` and the
falsy number `0` both select the default. -/
def jsOrInt (v : Option Int) (d : Int) : Int :=
  match v with
  | none => d
  | some x => if x == 0 then d else x

/-- JavaScript `x || d` for a possibly-absent string (`undefined` and the
falsy empty string select the default). -/
def jsOrStr (v : Option String) (d : String) : String :=
  match v with
  | none => d
  | some x => if x == "" then d else x

/-- The event built by `POST /events` (server.js lines 103-108): the row
inserted by the `INSERT` and the `ev` object handed to `scheduleReminder`.
(The in-memory `ev` carries the raw `notes`/`color`, but those fields play
no role in scheduling or delivery bookkeeping, so the defaulted row is used
for both.) -/
def mkEvent (r : CreateReq) : Event :=
  { id := r.id
    title := r.title
    datetime := r.datetime
    reminder_hours := jsOrInt r.reminderHours 24
    notes := jsOrStr r.notes ""
    color := jsOrStr r.color "#c17f3e"
    reminded := false }

/-- `POST /events` (server.js lines 100-114): `INSERT` the row, then
`scheduleReminder(ev)`.  If the id already exists the `INSERT` throws on the
primary key, the handler answers 500 and `scheduleReminder` is never
reached, so the state is unchanged. -/
def postEvent (r : CreateReq) (now : Int) (s : SysState) : SysState :=
  if s.db.any (fun e => e.id == r.id) then s
  else
    scheduleReminder now (mkEvent r) { s with db := s.db ++ [mkEvent r] }

/-- `DELETE /events/:id` (server.js lines 116-128): if `timers[id]` exists,
`clearTimeout` it and `delete timers[id]`; then `DELETE FROM events WHERE
id = $1`.  (JavaScript object keys make the route parameter string and the
numeric event id address the same entry.) -/
def deleteEvent (i : Nat) (s : SysState) : SysState :=
  let s1 := match lookupTok s.timersMap i with
    | some tok => { (clearTimeoutTok tok s) with timersMap := delTok s.timersMap i }
    | none => s
  { s1 with db := s1.db.filter (fun e => e.id != i) }

/-- The externally-triggered operations of the PG-variant process:
an HTTP create, an HTTP delete, startup recovery (`scheduleAllPending`, run
from `initDB`), and the expiry of a registered timeout together with the
sender outcome it observes. -/
inductive Act where
  | post (r : CreateReq) (now : Int)
  | del (i : Nat)
  | recover (now : Int)
  | fire (tok : Nat) (ok : Bool)
  deriving Repr, DecidableEq

/-- One step of the system. -/
def stepAct (a : Act) (s : SysState) : SysState :=
  match a with
  | .post r now => postEvent r now s
  | .del i => deleteEvent i s
  | .recover now => scheduleAllPending now s
  | .fire tok ok => fireTimer tok ok s

/-- Run a sequence of operations. -/
def runActs (acts : List Act) (s : SysState) : SysState :=
  acts.foldl (fun s a => stepAct a s) s

/-- The state of a freshly started process: the durable table survives, the
in-memory `timers` object and timer queue are empty (they are volatile). -/
def startState (db0 : List Event) : SysState :=
  { db := db0, timersMap := [], active := [], sent := [], nextToken := 0 }

/-- `SELECT * FROM events WHERE id = $1` viewpoint: the row with this id. -/
def getEvent (db : List Event) (i : Nat) : Option Event :=
  db.find? (fun e => e.id == i)

/-- The pending timers registered for one event id. -/
def activeFor (i : Nat) (s : SysState) : List ActiveTimer :=
  s.active.filter (fun t => t.ev.id == i)

/-- How many sender calls have been made for this event id. -/
def sentFor (i : Nat) (s : SysState) : Nat :=
  (s.sent.filter (fun p => p.1 == i)).length

/-- How many successful deliveries have been made for this event id. -/
def successFor (i : Nat) (s : SysState) : Nat :=
  (s.sent.filter (fun p => p.1 == i && p.2)).length

/-!
The `events.json` + cron variant (server.js lines 153-245).
-/

/-- The JSON body of `POST /events` in the file variant.  The handler copies
it verbatim (`{ ...req.body, id: Date.now(), reminded: false }`), so a field
the client omits stays absent; in particular there is no `reminderHours`
default on this path. -/
structure FileBody where
  title : String
  datetime : Int
  reminderHours : Option Int
  notes : Option String
  deriving Repr, DecidableEq

/-- An element of the in-memory `events` array of the file variant. -/
structure FileEvent where
  id : Nat
  title : String
  datetime : Int
  reminderHours : Option Int
  notes : Option String
  reminded : Bool
  deriving Repr, DecidableEq

/-- The event object built by the file-variant `POST /events` (server.js
line 183): the spread of the request body with `id` and `reminded: false`
forced. -/
def mkFileEvent (b : FileBody) (i : Nat) : FileEvent :=
  { id := i
    title := b.title
    datetime := b.datetime
    reminderHours := b.reminderHours
    notes := b.notes
    reminded := false }

/-- The file-variant `POST /events` (server.js lines 182-187):
`events.push(ev)`. -/
def filePostEvent (b : FileBody) (i : Nat) (events : List FileEvent) :
    List FileEvent :=
  events ++ [mkFileEvent b i]

/-- The file-variant `DELETE /events/:id` (server.js lines 189-193):
`events = events.filter(e => e.id != req.params.id)`. -/
def fileDeleteEvent (i : Nat) (events : List FileEvent) : List FileEvent :=
  events.filter (fun e => e.id != i)

/-- The per-event condition of the hourly cron pass (server.js lines
200-204): the event is not yet reminded, `hoursLeft = (datetime - now) /
3_600_000` is positive, and `hoursLeft ≤ ev.reminderHours`.  The divisions
are exact over the rationals, so the comparisons are stated on
milliseconds.  When `reminderHours` is absent the JavaScript comparison
`hoursLeft <= undefined` is false, so the event is never due. -/
def cronDue (now : Int) (ev : FileEvent) : Bool :=
  if ev.reminded then false
  else
    match ev.reminderHours with
    | none => false
    | some rh =>
      decide (0 < ev.datetime - now) && decide (ev.datetime - now ≤ rh * 3600000)

/-- One hourly cron pass of the file variant (server.js lines 196-218),
with the outcome of each sender call supplied by `ok`.  The loop walks the
array in order; a due event whose send succeeds is marked
`ev.reminded = true`; a send that throws rejects the callback and aborts the
rest of that pass, leaving the remaining events untouched. -/
def fileCronTick (now : Int) (ok : FileEvent → Bool) :
    List FileEvent → List FileEvent
  | [] => []
  | ev :: rest =>
    if cronDue now ev then
      if ok ev then { ev with reminded := true } :: fileCronTick now ok rest
      else ev :: rest
    else ev :: fileCronTick now ok rest

/-!
The list endpoint (claim C9).  The PG `GET /events` runs
`SELECT * FROM events ORDER BY datetime ASC`; since the `datetime` column is
`TEXT`, the store returns the rows sorted by the text ordering of that
column.  The sort is modelled executably by insertion sort, and the
properties proved (sortedness and permutation) hold of any correct
`ORDER BY`.  The file-variant `GET /events` returns the array as stored.
-/

/-- A row of the `events` table with the `datetime` column kept as the text
the store sorts on. -/
structure Row where
  id : Nat
  title : String
  datetime : String
  reminder_hours : Int
  notes : String
  color : String
  reminded : Bool
  deriving Repr, DecidableEq

/-- Comparison used by `ORDER BY datetime ASC` on the `TEXT` column. -/
def rowLe (a b : Row) : Prop :=
  a.datetime ≤ b.datetime

instance : DecidableRel rowLe := fun a b =>
  inferInstanceAs (Decidable (a.datetime ≤ b.datetime))

instance : IsTotal Row rowLe :=
  ⟨fun a b => le_total a.datetime b.datetime⟩

instance : IsTrans Row rowLe :=
  ⟨fun _ _ _ hab hbc => le_trans hab hbc⟩

/-- The PG-variant `GET /events` (server.js lines 83-98): all rows, ordered
by the `datetime` column ascending. -/
def getEventsPg (rows : List Row) : List Row :=
  rows.insertionSort rowLe

/-- The file-variant `GET /events` (server.js line 180): the stored array,
as is. -/
def getEventsFile (events : List FileEvent) : List FileEvent :=
  events

/-!
Basic lemmas about the timers object and row lookup.
-/

theorem lookupTok_nil (j : Nat) : lookupTok [] j = none := rfl

theorem lookupTok_cons (p : Nat × Nat) (m : List (Nat × Nat)) (j : Nat) :
    lookupTok (p :: m) j = if p.1 = j then some p.2 else lookupTok m j := by
  by_cases h : p.1 = j <;> simp [lookupTok, List.find?_cons, h]

theorem lookupTok_filter_ne (m : List (Nat × Nat)) (i j : Nat) (h : j ≠ i) :
    lookupTok (m.filter (fun p => p.1 != i)) j = lookupTok m j := by
  induction m with
  | nil => rfl
  | cons p m ih =>
    rw [List.filter_cons]
    by_cases hp : p.1 = i
    · have hpj : p.1 ≠ j := by rw [hp]; exact Ne.symm h
      simp [hp, lookupTok_cons, hpj, ih, Ne.symm h]
    · simp [hp, lookupTok_cons, ih]

theorem lookupTok_delTok (m : List (Nat × Nat)) (i j : Nat) :
    lookupTok (delTok m i) j = if j = i then none else lookupTok m j := by
  by_cases h : j = i
  · subst h
    simp only [delTok, lookupTok, if_pos rfl]
    rw [List.find?_eq_none.2]
    · rfl
    · intro p hp
      have := List.of_mem_filter hp
      simp only [bne_iff_ne, ne_eq] at this
      simp [this]
  · simp [delTok, h, lookupTok_filter_ne m i j h]

theorem lookupTok_setTok (m : List (Nat × Nat)) (i tok j : Nat) :
    lookupTok (setTok m i tok) j = if j = i then some tok else lookupTok m j := by
  by_cases h : j = i
  · subst h
    simp [setTok, lookupTok_cons]
  · have : i ≠ j := fun hji => h hji.symm
    simp [setTok, lookupTok_cons, this, h, lookupTok_filter_ne m i j h]

theorem getEvent_cons (e : Event) (db : List Event) (j : Nat) :
    getEvent (e :: db) j = if e.id = j then some e else getEvent db j := by
  by_cases h : e.id = j <;> simp [getEvent, List.find?_cons, h]

theorem getEvent_append (db1 db2 : List Event) (j : Nat) :
    getEvent (db1 ++ db2) j = (getEvent db1 j).or (getEvent db2 j) := by
  simp [getEvent, List.find?_append]

theorem getEvent_filter_out (db : List Event) (i : Nat) :
    getEvent (db.filter (fun e => e.id != i)) i = none := by
  simp only [getEvent]
  rw [List.find?_eq_none.2]
  intro e he
  have := List.of_mem_filter he
  simp only [bne_iff_ne, ne_eq] at this
  simp [this]

theorem getEvent_filter_ne (db : List Event) (i j : Nat) (h : j ≠ i) :
    getEvent (db.filter (fun e => e.id != i)) j = getEvent db j := by
  induction db with
  | nil => rfl
  | cons e db ih =>
    rw [List.filter_cons]
    by_cases hp : e.id = i
    · have hpj : e.id ≠ j := by rw [hp]; exact Ne.symm h
      simp [hp, getEvent_cons, hpj, ih, Ne.symm h]
    · simp [hp, getEvent_cons, ih]

theorem getEvent_markReminded_self (db : List Event) (i : Nat) :
    getEvent (markReminded i db) i =
      (getEvent db i).map (fun e => { e with reminded := true }) := by
  induction db with
  | nil => rfl
  | cons e db ih =>
    simp only [markReminded, List.map_cons] at ih ⊢
    by_cases h : e.id = i
    · rw [if_pos h]
      simp [getEvent_cons, h]
    · rw [if_neg h]
      simp [getEvent_cons, h, ih]

theorem getEvent_markReminded_ne (db : List Event) (i j : Nat) (h : j ≠ i) :
    getEvent (markReminded i db) j = getEvent db j := by
  induction db with
  | nil => rfl
  | cons e db ih =>
    simp only [markReminded, List.map_cons] at ih ⊢
    by_cases he : e.id = i
    · have hej : e.id ≠ j := by rw [he]; exact Ne.symm h
      rw [if_pos he]
      simp [getEvent_cons, he, hej, ih, Ne.symm h]
    · rw [if_neg he]
      by_cases hej : e.id = j
      · simp [getEvent_cons, hej]
      · simp [getEvent_cons, hej, ih]

theorem getEvent_some_mem {db : List Event} {j : Nat} {e : Event}
    (h : getEvent db j = some e) : e ∈ db ∧ e.id = j := by
  refine ⟨List.mem_of_find?_eq_some h, ?_⟩
  have := List.find?_some h
  simpa using this

theorem getEvent_none_iff {db : List Event} {j : Nat} :
    getEvent db j = none ↔ ∀ e ∈ db, e.id ≠ j := by
  simp [getEvent, List.find?_eq_none]

/-!
Shape lemmas for the scheduling and firing operations.
-/

theorem scheduleReminder_skip {now : Int} {ev : Event} (s : SysState)
    (h : sendAtOf ev ≤ now) : scheduleReminder now ev s = s := by
  unfold scheduleReminder
  rw [if_pos (by omega)]

theorem scheduleReminder_reg {now : Int} {ev : Event} (s : SysState)
    (h : ¬ sendAtOf ev - now ≤ 0) :
    ∃ rest,
      scheduleReminder now ev s =
        { s with
          timersMap := setTok ((match lookupTok s.timersMap ev.id with
            | some tok => clearTimeoutTok tok s
            | none => s)).timersMap ev.id s.nextToken
          active := ⟨s.nextToken, ev, sendAtOf ev⟩ :: rest
          nextToken := s.nextToken + 1 } ∧
      rest.Sublist s.active ∧
      (∀ u ∈ rest, u.ev.id = ev.id →
        lookupTok s.timersMap u.ev.id ≠ some u.token) := by
  unfold scheduleReminder
  rw [if_neg h]
  cases hl : lookupTok s.timersMap ev.id with
  | none =>
    exact ⟨s.active, rfl, List.Sublist.refl _,
      fun u _ hid => by rw [hid, hl]; simp⟩
  | some tok =>
    refine ⟨s.active.filter (fun t => t.token != tok), rfl,
      List.filter_sublist _, ?_⟩
    intro u hu hid
    have hmem := List.mem_filter.1 hu
    have hne : u.token ≠ tok := by simpa using hmem.2
    rw [hid, hl]
    intro hcontra
    exact hne (by injection hcontra with h2; exact h2.symm)

theorem scheduleReminder_db (now : Int) (ev : Event) (s : SysState) :
    (scheduleReminder now ev s).db = s.db := by
  by_cases h : sendAtOf ev - now ≤ 0
  · rw [scheduleReminder_skip s (by omega)]
  · obtain ⟨rest, heq, -, -⟩ := scheduleReminder_reg s h
    rw [heq]

theorem scheduleReminder_sent (now : Int) (ev : Event) (s : SysState) :
    (scheduleReminder now ev s).sent = s.sent := by
  by_cases h : sendAtOf ev - now ≤ 0
  · rw [scheduleReminder_skip s (by omega)]
  · obtain ⟨rest, heq, -, -⟩ := scheduleReminder_reg s h
    rw [heq]

theorem scheduleReminder_active_mem {now : Int} {ev : Event} {s : SysState}
    {t : ActiveTimer} (h : t ∈ (scheduleReminder now ev s).active) :
    t = ⟨s.nextToken, ev, sendAtOf ev⟩ ∨ t ∈ s.active := by
  by_cases hskip : sendAtOf ev - now ≤ 0
  · unfold scheduleReminder at h
    rw [if_pos hskip] at h
    exact Or.inr h
  · obtain ⟨rest, heq, hsub, -⟩ := scheduleReminder_reg s hskip
    rw [heq] at h
    rcases List.mem_cons.1 h with h | h
    · exact Or.inl h
    · exact Or.inr (hsub.mem h)

theorem foldl_sched_db (now : Int) (l : List Event) (s : SysState) :
    (l.foldl (fun acc e => scheduleReminder now e acc) s).db = s.db := by
  induction l generalizing s with
  | nil => rfl
  | cons e l ih => rw [List.foldl_cons, ih, scheduleReminder_db]

theorem foldl_sched_sent (now : Int) (l : List Event) (s : SysState) :
    (l.foldl (fun acc e => scheduleReminder now e acc) s).sent = s.sent := by
  induction l generalizing s with
  | nil => rfl
  | cons e l ih => rw [List.foldl_cons, ih, scheduleReminder_sent]

theorem scheduleAllPending_db (now : Int) (s : SysState) :
    (scheduleAllPending now s).db = s.db :=
  foldl_sched_db now _ s

theorem scheduleAllPending_sent (now : Int) (s : SysState) :
    (scheduleAllPending now s).sent = s.sent :=
  foldl_sched_sent now _ s

/-- Every timer present after a fold of `scheduleReminder` either carries
one of the folded events or was already present. -/
theorem foldl_sched_active_mem {now : Int} {l : List Event} {s : SysState}
    {t : ActiveTimer}
    (h : t ∈ (l.foldl (fun acc e => scheduleReminder now e acc) s).active) :
    (∃ e ∈ l, t.ev = e ∧ t.fireAt = sendAtOf e) ∨ t ∈ s.active := by
  induction l generalizing s with
  | nil => exact Or.inr h
  | cons e l ih =>
    rw [List.foldl_cons] at h
    rcases ih h with h1 | h1
    · obtain ⟨e2, he2, hev⟩ := h1
      exact Or.inl ⟨e2, List.mem_cons_of_mem _ he2, hev⟩
    · rcases scheduleReminder_active_mem h1 with h2 | h2
      · exact Or.inl ⟨e, List.mem_cons_self _ _, by rw [h2], by rw [h2]⟩
      · exact Or.inr h2

/-!
The reachability invariant of the PG-variant state machine.
-/

/-- Structural invariant maintained by every operation of the PG variant:
every pending timeout is recorded in the `timers` object under its event id
(so there is at most one pending timeout per event id), pending tokens are
fresh-bounded and pairwise distinct, every pending timeout belongs to a
stored, not-yet-reminded event, a pending timeout is due exactly at the
`sendAt` of its event, and row ids are unique (the table's primary key). -/
structure Inv (s : SysState) : Prop where
  mapped : ∀ t ∈ s.active, lookupTok s.timersMap t.ev.id = some t.token
  tokLt : ∀ t ∈ s.active, t.token < s.nextToken
  tokDistinct : s.active.Pairwise (fun a b => a.token ≠ b.token)
  backed : ∀ t ∈ s.active, ∃ e, e ∈ s.db ∧ e.id = t.ev.id ∧ e.reminded = false
  fireAtEq : ∀ t ∈ s.active, t.fireAt = sendAtOf t.ev
  dbIds : s.db.Pairwise (fun a b => a.id ≠ b.id)

theorem inv_scheduleReminder {s : SysState} (hInv : Inv s) (now : Int)
    (ev : Event) (hev : ∃ e, e ∈ s.db ∧ e.id = ev.id ∧ e.reminded = false) :
    Inv (scheduleReminder now ev s) := by
  by_cases hskip : sendAtOf ev - now ≤ 0
  · rw [scheduleReminder_skip s (by omega)]
    exact hInv
  · obtain ⟨rest, heq, hsub, hclear⟩ := scheduleReminder_reg s hskip
    rw [heq]
    have hrest_mem : ∀ u ∈ rest, u ∈ s.active := fun u hu => hsub.mem hu
    have hrest_ne : ∀ u ∈ rest, u.ev.id ≠ ev.id := by
      intro u hu hid
      exact hclear u hu hid (hid ▸ hInv.mapped u (hrest_mem u hu))
    have hmap1 : ((match lookupTok s.timersMap ev.id with
        | some tok => clearTimeoutTok tok s
        | none => s)).timersMap = s.timersMap := by
      cases lookupTok s.timersMap ev.id <;> rfl
    constructor
    · intro t ht
      rcases List.mem_cons.1 ht with rfl | ht
      · simp [hmap1, lookupTok_setTok]
      · have hne := hrest_ne t ht
        simp only [hmap1, lookupTok_setTok, if_neg hne]
        exact hInv.mapped t (hrest_mem t ht)
    · intro t ht
      rcases List.mem_cons.1 ht with rfl | ht
      · simp
      · have := hInv.tokLt t (hrest_mem t ht)
        simp only []
        omega
    · refine List.pairwise_cons.2 ⟨?_, List.Pairwise.sublist hsub hInv.tokDistinct⟩
      intro u hu
      have := hInv.tokLt u (hrest_mem u hu)
      simp only []
      omega
    · intro t ht
      rcases List.mem_cons.1 ht with rfl | ht
      · exact hev
      · exact hInv.backed t (hrest_mem t ht)
    · intro t ht
      rcases List.mem_cons.1 ht with rfl | ht
      · rfl
      · exact hInv.fireAtEq t (hrest_mem t ht)
    · exact hInv.dbIds

theorem inv_postEvent {s : SysState} (hInv : Inv s) (r : CreateReq)
    (now : Int) : Inv (postEvent r now s) := by
  unfold postEvent
  by_cases hdup : s.db.any (fun e => e.id == r.id)
  · rw [if_pos hdup]
    exact hInv
  · rw [if_neg hdup]
    have hfresh : ∀ e ∈ s.db, e.id ≠ r.id := by
      intro e he
      have := (List.any_eq_false).1 (Bool.eq_false_iff.2 hdup) e he
      simpa using this
    have hmid : Inv { s with db := s.db ++ [mkEvent r] } := by
      constructor
      · exact hInv.mapped
      · exact hInv.tokLt
      · exact hInv.tokDistinct
      · intro t ht
        obtain ⟨e, he, hid, hrem⟩ := hInv.backed t ht
        exact ⟨e, List.mem_append_left _ he, hid, hrem⟩
      · exact hInv.fireAtEq
      · rw [List.pairwise_append]
        refine ⟨hInv.dbIds, List.pairwise_singleton _ _, ?_⟩
        intro e he e2 he2
        rw [List.mem_singleton.1 he2]
        exact hfresh e he
    exact inv_scheduleReminder hmid now (mkEvent r)
      ⟨mkEvent r, List.mem_append_right _ (List.mem_singleton_self _), rfl, rfl⟩

theorem deleteEvent_eq_none {s : SysState} {i : Nat}
    (h : lookupTok s.timersMap i = none) :
    deleteEvent i s = { s with db := s.db.filter (fun e => e.id != i) } := by
  unfold deleteEvent
  rw [h]

theorem deleteEvent_eq_some {s : SysState} {i tok : Nat}
    (h : lookupTok s.timersMap i = some tok) :
    deleteEvent i s =
      { db := s.db.filter (fun e => e.id != i)
        timersMap := delTok s.timersMap i
        active := s.active.filter (fun t => t.token != tok)
        sent := s.sent
        nextToken := s.nextToken } := by
  unfold deleteEvent
  rw [h]
  rfl

theorem fireTimer_eq_none {s : SysState} {tok : Nat} {ok : Bool}
    (h : s.active.find? (fun t => t.token == tok) = none) :
    fireTimer tok ok s = s := by
  unfold fireTimer
  rw [h]

theorem fireTimer_eq_false {s : SysState} {tok : Nat} {t : ActiveTimer}
    (h : s.active.find? (fun t => t.token == tok) = some t) :
    fireTimer tok false s =
      { s with
        active := s.active.filter (fun u => u.token != tok)
        sent := (t.ev.id, false) :: s.sent } := by
  unfold fireTimer
  rw [h]
  rfl

theorem fireTimer_eq_true {s : SysState} {tok : Nat} {t : ActiveTimer}
    (h : s.active.find? (fun t => t.token == tok) = some t) :
    fireTimer tok true s =
      { db := markReminded t.ev.id s.db
        timersMap := delTok s.timersMap t.ev.id
        active := s.active.filter (fun u => u.token != tok)
        sent := (t.ev.id, true) :: s.sent
        nextToken := s.nextToken } := by
  unfold fireTimer
  rw [h]
  rfl

theorem inv_deleteEvent {s : SysState} (hInv : Inv s) (i : Nat) :
    Inv (deleteEvent i s) := by
  cases hl : lookupTok s.timersMap i with
  | none =>
    rw [deleteEvent_eq_none hl]
    have hactive_ne : ∀ t ∈ s.active, t.ev.id ≠ i := by
      intro t ht hid
      have := hInv.mapped t ht
      rw [hid, hl] at this
      exact Option.noConfusion this
    constructor
    · exact hInv.mapped
    · exact hInv.tokLt
    · exact hInv.tokDistinct
    · intro t ht
      obtain ⟨e, he, hid, hrem⟩ := hInv.backed t ht
      refine ⟨e, List.mem_filter.2 ⟨he, ?_⟩, hid, hrem⟩
      have : e.id ≠ i := by rw [hid]; exact hactive_ne t ht
      simpa using this
    · exact hInv.fireAtEq
    · exact List.Pairwise.sublist (List.filter_sublist _) hInv.dbIds
  | some tok =>
    rw [deleteEvent_eq_some hl]
    have hactive_ne : ∀ u ∈ s.active, u.token ≠ tok → u.ev.id ≠ i := by
      intro u hu htok hid
      have := hInv.mapped u hu
      rw [hid, hl] at this
      exact htok (by injection this with h2; exact h2.symm)
    constructor
    · intro t ht
      have ht2 := List.mem_filter.1 ht
      have htok : t.token ≠ tok := by simpa using ht2.2
      have hne : t.ev.id ≠ i := hactive_ne t ht2.1 htok
      simpa [lookupTok_delTok, hne] using hInv.mapped t ht2.1
    · intro t ht
      exact hInv.tokLt t (List.mem_filter.1 ht).1
    · exact List.Pairwise.sublist (List.filter_sublist _) hInv.tokDistinct
    · intro t ht
      have ht2 := List.mem_filter.1 ht
      have htok : t.token ≠ tok := by simpa using ht2.2
      have hne : t.ev.id ≠ i := hactive_ne t ht2.1 htok
      obtain ⟨e, he, hid, hrem⟩ := hInv.backed t ht2.1
      refine ⟨e, List.mem_filter.2 ⟨he, ?_⟩, hid, hrem⟩
      have : e.id ≠ i := by rw [hid]; exact hne
      simpa using this
    · intro t ht
      exact hInv.fireAtEq t (List.mem_filter.1 ht).1
    · exact List.Pairwise.sublist (List.filter_sublist _) hInv.dbIds

theorem markReminded_id (i : Nat) (e : Event) :
    (if e.id = i then { e with reminded := true } else e).id = e.id := by
  split <;> rfl

theorem inv_fireTimer {s : SysState} (hInv : Inv s) (tok : Nat) (ok : Bool) :
    Inv (fireTimer tok ok s) := by
  cases hf : s.active.find? (fun t => t.token == tok) with
  | none => rw [fireTimer_eq_none hf]; exact hInv
  | some t =>
    have htmem : t ∈ s.active := List.mem_of_find?_eq_some hf
    have httok : t.token = tok := by simpa using List.find?_some hf
    have hother : ∀ u ∈ s.active, u.token ≠ tok → u.ev.id ≠ t.ev.id := by
      intro u hu hutok hid
      have h1 := hInv.mapped u hu
      have h2 := hInv.mapped t htmem
      rw [hid] at h1
      rw [h1] at h2
      have h3 : u.token = t.token := Option.some.inj h2
      rw [httok] at h3
      exact hutok h3
    cases ok with
    | false =>
      rw [fireTimer_eq_false hf]
      constructor
      · intro u hu
        exact hInv.mapped u (List.mem_filter.1 hu).1
      · intro u hu
        exact hInv.tokLt u (List.mem_filter.1 hu).1
      · exact List.Pairwise.sublist (List.filter_sublist _) hInv.tokDistinct
      · intro u hu
        exact hInv.backed u (List.mem_filter.1 hu).1
      · intro u hu
        exact hInv.fireAtEq u (List.mem_filter.1 hu).1
      · exact hInv.dbIds
    | true =>
      rw [fireTimer_eq_true hf]
      constructor
      · intro u hu
        have hu2 := List.mem_filter.1 hu
        have hutok : u.token ≠ tok := by simpa using hu2.2
        have hne : u.ev.id ≠ t.ev.id := hother u hu2.1 hutok
        simpa [lookupTok_delTok, hne] using hInv.mapped u hu2.1
      · intro u hu
        exact hInv.tokLt u (List.mem_filter.1 hu).1
      · exact List.Pairwise.sublist (List.filter_sublist _) hInv.tokDistinct
      · intro u hu
        have hu2 := List.mem_filter.1 hu
        have hutok : u.token ≠ tok := by simpa using hu2.2
        have hne : u.ev.id ≠ t.ev.id := hother u hu2.1 hutok
        obtain ⟨e, he, hid, hrem⟩ := hInv.backed u hu2.1
        refine ⟨if e.id = t.ev.id then { e with reminded := true } else e,
          List.mem_map_of_mem _ he, ?_, ?_⟩
        · rw [if_neg (by rw [hid]; exact hne)]
          exact hid
        · rw [if_neg (by rw [hid]; exact hne)]
          exact hrem
      · intro u hu
        exact hInv.fireAtEq u (List.mem_filter.1 hu).1
      · rw [show markReminded t.ev.id s.db =
          s.db.map (fun e => if e.id = t.ev.id then { e with reminded := true } else e)
          from rfl]
        rw [List.pairwise_map]
        refine hInv.dbIds.imp ?_
        intro a b hab
        rw [markReminded_id, markReminded_id]
        exact hab

theorem inv_foldl_sched {now : Int} (L : List Event) :
    ∀ s2 : SysState,
      (∀ e ∈ L, ∃ e2, e2 ∈ s2.db ∧ e2.id = e.id ∧ e2.reminded = false) →
      Inv s2 → Inv (L.foldl (fun acc e => scheduleReminder now e acc) s2) := by
  induction L with
  | nil => exact fun s2 _ h => h
  | cons e L ih =>
    intro s2 hl h
    rw [List.foldl_cons]
    apply ih
    · intro e2 he2
      rw [scheduleReminder_db]
      exact hl e2 (List.mem_cons_of_mem _ he2)
    · exact inv_scheduleReminder h now e (hl e (List.mem_cons_self _ _))

theorem inv_scheduleAllPending {s : SysState} (hInv : Inv s) (now : Int) :
    Inv (scheduleAllPending now s) := by
  unfold scheduleAllPending
  apply inv_foldl_sched
  · intro e he
    have h2 := List.mem_filter.1 he
    exact ⟨e, h2.1, rfl, by simpa using h2.2⟩
  · exact hInv

theorem inv_stepAct {s : SysState} (hInv : Inv s) (a : Act) :
    Inv (stepAct a s) := by
  cases a with
  | post r now => exact inv_postEvent hInv r now
  | del i => exact inv_deleteEvent hInv i
  | recover now => exact inv_scheduleAllPending hInv now
  | fire tok ok => exact inv_fireTimer hInv tok ok

theorem inv_runActs {s : SysState} (hInv : Inv s) (acts : List Act) :
    Inv (runActs acts s) := by
  induction acts generalizing s with
  | nil => exact hInv
  | cons a acts ih => exact ih (inv_stepAct hInv a)

theorem inv_startState {db0 : List Event}
    (hdist : db0.Pairwise (fun a b => a.id ≠ b.id)) : Inv (startState db0) := by
  constructor
  · intro t ht; exact absurd ht (List.not_mem_nil t)
  · intro t ht; exact absurd ht (List.not_mem_nil t)
  · exact List.Pairwise.nil
  · intro t ht; exact absurd ht (List.not_mem_nil t)
  · intro t ht; exact absurd ht (List.not_mem_nil t)
  · exact hdist

/-!
Stability of the sender-call log for events that have no pending timer.
-/

theorem activeFor_eq_nil_iff {i : Nat} {s : SysState} :
    activeFor i s = [] ↔ ∀ t ∈ s.active, t.ev.id ≠ i := by
  simp [activeFor, List.filter_eq_nil_iff]

theorem deleteEvent_db (i : Nat) (s : SysState) :
    (deleteEvent i s).db = s.db.filter (fun e => e.id != i) := by
  cases hl : lookupTok s.timersMap i with
  | none => rw [deleteEvent_eq_none hl]
  | some tok => rw [deleteEvent_eq_some hl]

theorem deleteEvent_sent (i : Nat) (s : SysState) :
    (deleteEvent i s).sent = s.sent := by
  cases hl : lookupTok s.timersMap i with
  | none => rw [deleteEvent_eq_none hl]
  | some tok => rw [deleteEvent_eq_some hl]

theorem deleteEvent_active_sub {i : Nat} {s : SysState} {t : ActiveTimer}
    (h : t ∈ (deleteEvent i s).active) : t ∈ s.active := by
  cases hl : lookupTok s.timersMap i with
  | none => rw [deleteEvent_eq_none hl] at h; exact h
  | some tok =>
    rw [deleteEvent_eq_some hl] at h
    exact (List.mem_filter.1 h).1

theorem sentFor_sent_eq {i : Nat} {s1 s2 : SysState}
    (h : s1.sent = s2.sent) : sentFor i s1 = sentFor i s2 := by
  simp [sentFor, h]

theorem successFor_sent_eq {i : Nat} {s1 s2 : SysState}
    (h : s1.sent = s2.sent) : successFor i s1 = successFor i s2 := by
  simp [successFor, h]

/-- Acts that do not create an event with id `i`. -/
def notPostFor (i : Nat) (a : Act) : Prop :=
  match a with
  | .post r _ => r.id ≠ i
  | _ => True

/-- Acts that are not a recovery pass. -/
def notRecover (a : Act) : Prop :=
  match a with
  | .recover _ => False
  | _ => True

/-- If event id `i` has no pending timer and no stored row, then any act
that does not re-create id `i` keeps it that way and makes no sender call
for it.  (Recovery can run: it only schedules stored rows.) -/
theorem step_gone_stable {i : Nat} {s : SysState} {a : Act}
    (hact : activeFor i s = []) (hdb : getEvent s.db i = none)
    (ha : notPostFor i a) :
    activeFor i (stepAct a s) = [] ∧ getEvent (stepAct a s).db i = none ∧
      sentFor i (stepAct a s) = sentFor i s := by
  have hactv : ∀ t ∈ s.active, t.ev.id ≠ i := activeFor_eq_nil_iff.1 hact
  have hdbv : ∀ e ∈ s.db, e.id ≠ i := getEvent_none_iff.1 hdb
  cases a with
  | post r now =>
    have hri : r.id ≠ i := ha
    simp only [stepAct]
    unfold postEvent
    by_cases hdup : s.db.any (fun e => e.id == r.id)
    · rw [if_pos hdup]
      exact ⟨hact, hdb, rfl⟩
    · rw [if_neg hdup]
      refine ⟨?_, ?_, ?_⟩
      · rw [activeFor_eq_nil_iff]
        intro t ht
        rcases scheduleReminder_active_mem ht with rfl | ht2
        · exact hri
        · exact hactv t ht2
      · rw [scheduleReminder_db]
        have h2 : getEvent [mkEvent r] i = none := by
          rw [getEvent_none_iff]
          intro e he
          rw [List.mem_singleton.1 he]
          exact hri
        show getEvent (s.db ++ [mkEvent r]) i = none
        rw [getEvent_append, hdb, h2]
        rfl
      · exact sentFor_sent_eq (scheduleReminder_sent now (mkEvent r) _)
  | del j =>
    simp only [stepAct]
    refine ⟨?_, ?_, sentFor_sent_eq (deleteEvent_sent j s)⟩
    · rw [activeFor_eq_nil_iff]
      intro t ht
      exact hactv t (deleteEvent_active_sub ht)
    · rw [deleteEvent_db, getEvent_none_iff]
      intro e he
      exact hdbv e (List.mem_filter.1 he).1
  | recover now =>
    simp only [stepAct]
    refine ⟨?_, ?_, sentFor_sent_eq (scheduleAllPending_sent now s)⟩
    · rw [activeFor_eq_nil_iff]
      intro t ht
      rcases foldl_sched_active_mem ht with ⟨e, he, hev, -⟩ | ht2
      · have he2 := (List.mem_filter.1 he).1
        rw [hev]
        exact hdbv e he2
      · exact hactv t ht2
    · rw [scheduleAllPending_db]
      exact hdb
  | fire tok ok =>
    simp only [stepAct]
    cases hf : s.active.find? (fun t => t.token == tok) with
    | none => rw [fireTimer_eq_none hf]; exact ⟨hact, hdb, rfl⟩
    | some t =>
      have htmem : t ∈ s.active := List.mem_of_find?_eq_some hf
      have htne : t.ev.id ≠ i := hactv t htmem
      cases ok with
      | false =>
        rw [fireTimer_eq_false hf]
        refine ⟨?_, hdb, ?_⟩
        · rw [activeFor_eq_nil_iff]
          intro u hu
          exact hactv u (List.mem_filter.1 hu).1
        · simp [sentFor, List.filter_cons, htne]
      | true =>
        rw [fireTimer_eq_true hf]
        refine ⟨?_, ?_, ?_⟩
        · rw [activeFor_eq_nil_iff]
          intro u hu
          exact hactv u (List.mem_filter.1 hu).1
        · show getEvent (markReminded t.ev.id s.db) i = none
          rw [getEvent_markReminded_ne _ _ _ (fun h => htne h.symm)]
          exact hdb
        · simp [sentFor, List.filter_cons, htne]

theorem run_gone_stable {i : Nat} (acts : List Act) :
    ∀ s : SysState, activeFor i s = [] → getEvent s.db i = none →
    (∀ a ∈ acts, notPostFor i a) →
    activeFor i (runActs acts s) = [] ∧
      getEvent (runActs acts s).db i = none ∧
      sentFor i (runActs acts s) = sentFor i s := by
  induction acts with
  | nil => exact fun s h1 h2 _ => ⟨h1, h2, rfl⟩
  | cons a acts ih =>
    intro s h1 h2 hall
    obtain ⟨g1, g2, g3⟩ :=
      step_gone_stable h1 h2 (hall a (List.mem_cons_self _ _))
    obtain ⟨r1, r2, r3⟩ := ih (stepAct a s) g1 g2
      (fun b hb => hall b (List.mem_cons_of_mem _ hb))
    exact ⟨r1, r2, by rw [show runActs (a :: acts) s = runActs acts (stepAct a s)
      from rfl, r3, g3]⟩

/-!
Claim-independent helper lemmas for the creation route.
-/

theorem postEvent_db_fresh {r : CreateReq} {s : SysState} (now : Int)
    (hfresh : s.db.any (fun e => e.id == r.id) = false) :
    (postEvent r now s).db = s.db ++ [mkEvent r] := by
  unfold postEvent
  rw [if_neg (by simp [hfresh]), scheduleReminder_db]

theorem getEvent_post_fresh {r : CreateReq} {s : SysState} (now : Int)
    (hfresh : s.db.any (fun e => e.id == r.id) = false) :
    getEvent (postEvent r now s).db r.id = some (mkEvent r) := by
  rw [postEvent_db_fresh now hfresh, getEvent_append]
  have h1 : getEvent s.db r.id = none := by
    rw [getEvent_none_iff]
    intro e he
    have := List.any_eq_false.1 hfresh e he
    simpa using this
  have h2 : getEvent [mkEvent r] r.id = some (mkEvent r) := by
    rw [show ([mkEvent r] : List Event) = mkEvent r :: [] from rfl, getEvent_cons]
    rw [if_pos (show (mkEvent r).id = r.id from rfl)]
  rw [h1, h2]
  rfl

theorem foldl_sched_pastdue {now : Int} (L : List Event) :
    ∀ s : SysState, (∀ e ∈ L, sendAtOf e ≤ now) →
      L.foldl (fun acc e => scheduleReminder now e acc) s = s := by
  induction L with
  | nil => intro s _; rfl
  | cons e L ih =>
    intro s hL
    rw [List.foldl_cons, scheduleReminder_skip s (hL e (List.mem_cons_self _ _))]
    exact ih s (fun e2 he2 => hL e2 (List.mem_cons_of_mem _ he2))

/-!
Concrete fixtures used by witnesses and counterexamples.
-/

/-- A past-due event: datetime one hour after the epoch with a one-hour
lead, so its sendAt is exactly the epoch. -/
def pastEv : Event :=
  { id := 1, title := "Standup", datetime := 3600000, reminder_hours := 1,
    notes := "", color := "#c17f3e", reminded := false }

/-- An event whose reminder window has not yet opened at time 0:
sendAt = 3600000. -/
def demoEv : Event :=
  { id := 1, title := "Standup", datetime := 2 * 3600000, reminder_hours := 1,
    notes := "", color := "#c17f3e", reminded := false }

/-- The state after `demoEv` is scheduled at time 0 on a fresh process whose
store holds exactly `demoEv`. -/
def demoSched : SysState :=
  scheduleReminder 0 demoEv (startState [demoEv])

/-- An event with a 24-hour lead and datetime 48 hours after time 0. -/
def ev48 : Event :=
  { id := 2, title := "Offsite", datetime := 48 * 3600000,
    reminder_hours := 24, notes := "", color := "#c17f3e", reminded := false }

/-!
Claim C1.
-/

/-- C1 counterexample: claim C1 says an event whose computed sendAt is at or
before the current time is delivered immediately (delay clamped to 0), never
skipped.  In the code, scheduleReminder returns without registering anything
when msUntilSend ≤ 0 ("Skipping past reminder"), so recovery at time 1000
over a store holding the past-due unreminded event pastEv leaves the whole
state untouched: no timer is pending and no sender call is made. -/
theorem c1_counterexample :
    sendAtOf pastEv ≤ 1000 ∧ pastEv.reminded = false ∧
    scheduleAllPending 1000 (startState [pastEv]) = startState [pastEv] ∧
    (scheduleReminder 1000 pastEv (startState [pastEv])).active = [] ∧
    sentFor 1 (scheduleAllPending 1000 (startState [pastEv])) = 0 := by
  refine ⟨by decide, rfl, by decide, by decide, by decide⟩

/-- C1 (amended): an event whose computed sendAt is at or before the current
time when it is scheduled (at creation or during Recovery) is skipped: no
timer is registered and the state is unchanged, so no delivery attempt ever
occurs for it on that path.  In particular a Recovery pass over a store
whose rows are all past due does nothing. -/
theorem c1_pastdue_skipped :
    (∀ (now : Int) (ev : Event) (s : SysState), sendAtOf ev ≤ now →
      scheduleReminder now ev s = s) ∧
    (∀ (now : Int) (s : SysState), (∀ e ∈ s.db, sendAtOf e ≤ now) →
      scheduleAllPending now s = s) := by
  constructor
  · exact fun now ev s h => scheduleReminder_skip s h
  · intro now s h
    unfold scheduleAllPending
    exact foldl_sched_pastdue _ s (fun e he => h e (List.mem_filter.1 he).1)

theorem c1_pastdue_skipped_witness :
    scheduleReminder 1000 pastEv (startState []) = startState [] ∧
    scheduleAllPending 1000 (startState [pastEv]) = startState [pastEv] :=
  ⟨c1_pastdue_skipped.1 1000 pastEv (startState []) (by decide),
   c1_pastdue_skipped.2 1000 (startState [pastEv])
     (by intro e he; rw [List.mem_singleton.1 he]; decide)⟩

/-!
Claim C7.
-/

/-- C7: the fire time of every pending timer in every reachable state is
sendAt = datetime - reminderHours * 3_600_000 (creation and Recovery both
register through the same scheduleReminder, so the computation is identical
on both paths); and for an event with reminderHours = 24 and datetime =
now + 48h, the timer registered by scheduleReminder is due at now + 24h. -/
theorem c7_fire_time :
    (∀ db0 : List Event, db0.Pairwise (fun a b => a.id ≠ b.id) →
      ∀ (acts : List Act) (t : ActiveTimer),
        t ∈ (runActs acts (startState db0)).active →
        t.fireAt = t.ev.datetime - t.ev.reminder_hours * 3600000) ∧
    (∀ (now : Int) (ev : Event) (s : SysState),
      ev.reminder_hours = 24 → ev.datetime = now + 48 * 3600000 →
      ∃ rest, (scheduleReminder now ev s).active =
        ⟨s.nextToken, ev, now + 24 * 3600000⟩ :: rest) := by
  constructor
  · intro db0 hdist acts t ht
    exact (inv_runActs (inv_startState hdist) acts).fireAtEq t ht
  · intro now ev s h24 h48
    have hsend : sendAtOf ev = now + 24 * 3600000 := by
      rw [sendAtOf, h24, h48]
      ring
    have hpos : ¬ sendAtOf ev - now ≤ 0 := by
      rw [hsend]
      omega
    obtain ⟨rest, heq, -, -⟩ := scheduleReminder_reg s hpos
    refine ⟨rest, ?_⟩
    rw [heq, hsend]

theorem c7_fire_time_witness :
    ∃ rest, (scheduleReminder 0 ev48 (startState [])).active =
      ⟨0, ev48, 0 + 24 * 3600000⟩ :: rest :=
  c7_fire_time.2 0 ev48 (startState []) rfl (by decide)

/-!
Claim C10.
-/

/-- C10: a creation request that explicitly supplies reminderHours = 0 is
stored and scheduled with reminderHours = 24, because `reminderHours || 24`
treats the falsy 0 as absent; so a zero lead time cannot be expressed. -/
theorem c10_zero_lead_coerced (r : CreateReq) (now : Int) (s : SysState)
    (h0 : r.reminderHours = some 0)
    (hfresh : s.db.any (fun e => e.id == r.id) = false) :
    getEvent (postEvent r now s).db r.id = some (mkEvent r) ∧
    (mkEvent r).reminder_hours = 24 ∧
    (mkEvent r).reminder_hours ≠ 0 ∧
    sendAtOf (mkEvent r) = r.datetime - 24 * 3600000 := by
  refine ⟨getEvent_post_fresh now hfresh, ?_, ?_, ?_⟩
  · simp [mkEvent, jsOrInt, h0]
  · simp [mkEvent, jsOrInt, h0]
  · simp [sendAtOf, mkEvent, jsOrInt, h0]

/-- A creation request explicitly asking for a zero lead time. -/
def reqZero : CreateReq :=
  { id := 5, title := "Zero", datetime := 86400000,
    reminderHours := some 0, notes := none, color := none }

theorem c10_zero_lead_coerced_witness :
    getEvent (postEvent reqZero 11 (startState [])).db reqZero.id =
      some (mkEvent reqZero) ∧
    (mkEvent reqZero).reminder_hours = 24 ∧
    (mkEvent reqZero).reminder_hours ≠ 0 ∧
    sendAtOf (mkEvent reqZero) = reqZero.datetime - 24 * 3600000 :=
  c10_zero_lead_coerced reqZero 11 (startState []) rfl rfl

/-!
Claim C8.
-/

/-- A creation request that leaves reminderHours unspecified. -/
def bodyNoRem : FileBody :=
  { title := "Standup", datetime := 7200000, reminderHours := none,
    notes := none }

/-- C8 counterexample: claim C8 says every creation request without
reminderHours yields an event whose reminderHours is 24, used for the fire
time.  The file-variant POST stores the spread request body unchanged, so
the created event has no reminderHours at all, and the hourly check
`hoursLeft <= undefined` is false, so no fire time is ever derived from 24
(shown at two sample times inside and outside a 24-hour window). -/
theorem c8_counterexample :
    filePostEvent bodyNoRem 7 [] = [mkFileEvent bodyNoRem 7] ∧
    (mkFileEvent bodyNoRem 7).reminderHours = none ∧
    (mkFileEvent bodyNoRem 7).reminderHours ≠ some 24 ∧
    cronDue 0 (mkFileEvent bodyNoRem 7) = false ∧
    cronDue 3600000 (mkFileEvent bodyNoRem 7) = false := by
  refine ⟨rfl, rfl, by decide, rfl, rfl⟩

/-- C8 (amended): in the PG variant an unspecified reminderHours defaults to
24 (stored row and scheduling both use 24, giving sendAt = datetime - 24h);
in the file variant the created event carries no reminderHours and the
hourly reminder check is never true for it. -/
theorem c8_default_24 :
    (∀ (r : CreateReq) (now : Int) (s : SysState), r.reminderHours = none →
      s.db.any (fun e => e.id == r.id) = false →
      getEvent (postEvent r now s).db r.id = some (mkEvent r) ∧
      (mkEvent r).reminder_hours = 24 ∧
      sendAtOf (mkEvent r) = r.datetime - 24 * 3600000) ∧
    (∀ (b : FileBody) (i : Nat) (now : Int), b.reminderHours = none →
      (mkFileEvent b i).reminderHours = none ∧
      cronDue now (mkFileEvent b i) = false) := by
  constructor
  · intro r now s h0 hfresh
    refine ⟨getEvent_post_fresh now hfresh, ?_, ?_⟩
    · simp [mkEvent, jsOrInt, h0]
    · simp [sendAtOf, mkEvent, jsOrInt, h0]
  · intro b i now h0
    exact ⟨by simp [mkFileEvent, h0], by simp [cronDue, mkFileEvent, h0]⟩

/-- A PG-variant creation request that leaves reminderHours unspecified. -/
def reqNoRem : CreateReq :=
  { id := 6, title := "Standup", datetime := 90000000,
    reminderHours := none, notes := none, color := none }

theorem c8_default_24_witness :
    (getEvent (postEvent reqNoRem 3 (startState [])).db reqNoRem.id =
        some (mkEvent reqNoRem) ∧
      (mkEvent reqNoRem).reminder_hours = 24 ∧
      sendAtOf (mkEvent reqNoRem) = reqNoRem.datetime - 24 * 3600000) ∧
    ((mkFileEvent bodyNoRem 9).reminderHours = none ∧
      cronDue 42 (mkFileEvent bodyNoRem 9) = false) :=
  ⟨c8_default_24.1 reqNoRem 3 (startState []) rfl rfl,
   c8_default_24.2 bodyNoRem 9 42 rfl⟩

/-!
Claim C9.
-/

/-- A stored file-variant event with the later datetime, listed first. -/
def fevLate : FileEvent :=
  { id := 1, title := "Late", datetime := 7200000, reminderHours := some 1,
    notes := none, reminded := false }

/-- A stored file-variant event with the earlier datetime, listed second. -/
def fevEarly : FileEvent :=
  { id := 2, title := "Early", datetime := 3600000, reminderHours := some 1,
    notes := none, reminded := false }

/-- C9 counterexample: claim C9 says GET /events returns the stored events
ordered by datetime ascending for every store state.  The file-variant GET
returns the array as stored; with the later event stored first the response
is not sorted by datetime. -/
theorem c9_counterexample :
    getEventsFile [fevLate, fevEarly] = [fevLate, fevEarly] ∧
    ¬ List.Sorted (fun a b : FileEvent => a.datetime ≤ b.datetime)
        (getEventsFile [fevLate, fevEarly]) := by
  refine ⟨rfl, ?_⟩
  intro h
  have := List.rel_of_sorted_cons h fevEarly (List.mem_singleton_self _)
  simp [fevLate, fevEarly] at this

/-- C9 (amended): the PG-variant GET /events returns a permutation of the
stored rows that is sorted ascending by the text datetime column; the
file-variant GET returns the stored array in insertion order, unsorted. -/
theorem c9_list_order :
    (∀ rows : List Row, (getEventsPg rows).Perm rows ∧
      List.Sorted rowLe (getEventsPg rows)) ∧
    (∀ events : List FileEvent, getEventsFile events = events) :=
  ⟨fun rows => ⟨List.perm_insertionSort rowLe rows,
    List.sorted_insertionSort rowLe rows⟩, fun _ => rfl⟩

/-!
Claim C2.
-/

/-- If event id `i` has no pending timer, any act other than a recovery
pass or a creation of id `i` keeps it that way and adds no sender call
for it. -/
theorem step_noactive_stable {i : Nat} {s : SysState} {a : Act}
    (hact : activeFor i s = []) (ha : notPostFor i a) (hr : notRecover a) :
    activeFor i (stepAct a s) = [] ∧ sentFor i (stepAct a s) = sentFor i s := by
  have hactv : ∀ t ∈ s.active, t.ev.id ≠ i := activeFor_eq_nil_iff.1 hact
  cases a with
  | post r now =>
    have hri : r.id ≠ i := ha
    simp only [stepAct]
    unfold postEvent
    by_cases hdup : s.db.any (fun e => e.id == r.id)
    · rw [if_pos hdup]
      exact ⟨hact, rfl⟩
    · rw [if_neg hdup]
      refine ⟨?_, sentFor_sent_eq (scheduleReminder_sent now (mkEvent r) _)⟩
      rw [activeFor_eq_nil_iff]
      intro t ht
      rcases scheduleReminder_active_mem ht with rfl | ht2
      · exact hri
      · exact hactv t ht2
  | del j =>
    simp only [stepAct]
    refine ⟨?_, sentFor_sent_eq (deleteEvent_sent j s)⟩
    rw [activeFor_eq_nil_iff]
    intro t ht
    exact hactv t (deleteEvent_active_sub ht)
  | recover now => exact hr.elim
  | fire tok ok =>
    simp only [stepAct]
    cases hf : s.active.find? (fun t => t.token == tok) with
    | none => rw [fireTimer_eq_none hf]; exact ⟨hact, rfl⟩
    | some t =>
      have htmem : t ∈ s.active := List.mem_of_find?_eq_some hf
      have htne : t.ev.id ≠ i := hactv t htmem
      have hnil : ∀ (b : Bool), activeFor i { s with
          active := s.active.filter (fun u => u.token != tok)
          sent := (t.ev.id, b) :: s.sent } = [] := by
        intro b
        rw [activeFor_eq_nil_iff]
        intro u hu
        exact hactv u (List.mem_filter.1 hu).1
      cases ok with
      | false =>
        rw [fireTimer_eq_false hf]
        exact ⟨hnil false, by simp [sentFor, List.filter_cons, htne]⟩
      | true =>
        rw [fireTimer_eq_true hf]
        refine ⟨?_, by simp [sentFor, List.filter_cons, htne]⟩
        rw [activeFor_eq_nil_iff]
        intro u hu
        exact hactv u (List.mem_filter.1 hu).1

theorem run_noactive_stable {i : Nat} (acts : List Act) :
    ∀ s : SysState, activeFor i s = [] →
    (∀ a ∈ acts, notPostFor i a ∧ notRecover a) →
    sentFor i (runActs acts s) = sentFor i s := by
  induction acts with
  | nil => exact fun s _ _ => rfl
  | cons a acts ih =>
    intro s h1 hall
    obtain ⟨ha, hr⟩ := hall a (List.mem_cons_self _ _)
    obtain ⟨g1, g2⟩ := step_noactive_stable h1 ha hr
    rw [show runActs (a :: acts) s = runActs acts (stepAct a s) from rfl,
      ih (stepAct a s) g1 (fun b hb => hall b (List.mem_cons_of_mem _ hb)), g2]

/-- C2 (amended): when the Sender fails, the timer variant schedules no
retry: the fired timeout is consumed, exactly one new sender call is logged
for the event, the store row is untouched (reminded stays false), no timer
remains pending for that event, and no further sender call for it occurs on
any continuation that does not run Recovery or re-create the id.  (Only a
process restart's Recovery pass gives a fresh attempt.) -/
theorem c2_no_retry (s : SysState) (hInv : Inv s) (tok : Nat)
    (t : ActiveTimer)
    (hf : s.active.find? (fun u => u.token == tok) = some t) :
    (fireTimer tok false s).db = s.db ∧
    sentFor t.ev.id (fireTimer tok false s) = sentFor t.ev.id s + 1 ∧
    activeFor t.ev.id (fireTimer tok false s) = [] ∧
    (∀ acts : List Act,
      (∀ a ∈ acts, notPostFor t.ev.id a ∧ notRecover a) →
      sentFor t.ev.id (runActs acts (fireTimer tok false s)) =
        sentFor t.ev.id (fireTimer tok false s)) := by
  have htmem : t ∈ s.active := List.mem_of_find?_eq_some hf
  have httok : t.token = tok := by simpa using List.find?_some hf
  have hnil : activeFor t.ev.id (fireTimer tok false s) = [] := by
    rw [fireTimer_eq_false hf, activeFor_eq_nil_iff]
    intro u hu hid
    have hu2 := List.mem_filter.1 hu
    have hutok : u.token ≠ tok := by simpa using hu2.2
    have h1 := hInv.mapped u hu2.1
    have h2 := hInv.mapped t htmem
    rw [hid] at h1
    rw [h1] at h2
    exact hutok (httok ▸ Option.some.inj h2)
  refine ⟨by rw [fireTimer_eq_false hf], ?_, hnil, ?_⟩
  · rw [fireTimer_eq_false hf]
    simp [sentFor, List.filter_cons]
  · intro acts hall
    exact run_noactive_stable acts _ hnil hall

/-- The single pending timeout of `demoSched`. -/
def demoTimer : ActiveTimer := ⟨0, demoEv, 3600000⟩

theorem c2_no_retry_witness :
    (fireTimer 0 false demoSched).db = demoSched.db ∧
    sentFor demoTimer.ev.id (fireTimer 0 false demoSched) =
      sentFor demoTimer.ev.id demoSched + 1 ∧
    activeFor demoTimer.ev.id (fireTimer 0 false demoSched) = [] ∧
    (∀ acts : List Act,
      (∀ a ∈ acts, notPostFor demoTimer.ev.id a ∧ notRecover a) →
      sentFor demoTimer.ev.id (runActs acts (fireTimer 0 false demoSched)) =
        sentFor demoTimer.ev.id (fireTimer 0 false demoSched)) :=
  c2_no_retry demoSched
    (by constructor <;> decide) 0 demoTimer (by decide)

/-- C2 counterexample: claim C2 says that on Sender failure the engine
retries on a fixed backoff up to a fixed MAX_ATTEMPTS (for example 10
attempts).  Concretely: demoEv is scheduled, its timeout fires, the sender
fails; afterwards exactly one sender call has happened, the process has no
pending timeout at all (so no second attempt can ever fire), re-firing the
consumed token is a no-op, and the row is still unreminded.  There is no
retry state in the code: the catch block only logs. -/
theorem c2_counterexample :
    sentFor 1 (fireTimer 0 false demoSched) = 1 ∧
    (fireTimer 0 false demoSched).active = [] ∧
    fireTimer 0 false (fireTimer 0 false demoSched) =
      fireTimer 0 false demoSched ∧
    getEvent (fireTimer 0 false demoSched).db 1 = some demoEv ∧
    demoEv.reminded = false := by
  refine ⟨by decide, by decide, by decide, by decide, rfl⟩

/-!
Claim C3.
-/

theorem no_flip_of_some_eq {e e2 : Event} (h : some e = some e2) (P : Prop) :
    (e.reminded = true → e2.reminded = true) ∧
    (e.reminded = false → e2.reminded = true → P) := by
  have he : e2 = e := (Option.some.inj h).symm
  subst he
  exact ⟨fun h1 => h1,
    fun h1 h2 => absurd h2 (by rw [h1]; exact Bool.false_ne_true)⟩

/-- C3: the reminded flag of a stored event never reverts from true to
false in any step, and the only step that flips it from false to true is
the firing of a pending timer for that exact event id with the Sender
reporting success. -/
theorem c3_reminded_once (s : SysState) (a : Act) (i : Nat) (e e2 : Event)
    (he : getEvent s.db i = some e)
    (he2 : getEvent (stepAct a s).db i = some e2) :
    (e.reminded = true → e2.reminded = true) ∧
    (e.reminded = false → e2.reminded = true →
      ∃ t ∈ s.active, a = Act.fire t.token true ∧ t.ev.id = i) := by
  cases a with
  | post r now =>
    simp only [stepAct] at he2
    unfold postEvent at he2
    by_cases hdup : s.db.any (fun e => e.id == r.id)
    · rw [if_pos hdup] at he2
      rw [he] at he2
      exact no_flip_of_some_eq he2 _
    · rw [if_neg hdup, scheduleReminder_db] at he2
      rw [getEvent_append, he] at he2
      exact no_flip_of_some_eq he2 _
  | del j =>
    simp only [stepAct] at he2
    rw [deleteEvent_db] at he2
    by_cases hj : i = j
    · rw [hj, getEvent_filter_out] at he2
      exact Option.noConfusion he2
    · rw [getEvent_filter_ne _ _ _ hj, he] at he2
      exact no_flip_of_some_eq he2 _
  | recover now =>
    simp only [stepAct] at he2
    rw [scheduleAllPending_db, he] at he2
    exact no_flip_of_some_eq he2 _
  | fire tok ok =>
    simp only [stepAct] at he2
    cases hf : s.active.find? (fun t => t.token == tok) with
    | none =>
      rw [fireTimer_eq_none hf] at he2
      rw [he] at he2
      exact no_flip_of_some_eq he2 _
    | some t =>
      have htmem : t ∈ s.active := List.mem_of_find?_eq_some hf
      have httok : t.token = tok := by simpa using List.find?_some hf
      cases ok with
      | false =>
        rw [fireTimer_eq_false hf] at he2
        rw [he] at he2
        exact no_flip_of_some_eq he2 _
      | true =>
        rw [fireTimer_eq_true hf] at he2
        by_cases hti : t.ev.id = i
        · rw [hti, getEvent_markReminded_self, he] at he2
          have he2' : e2 = { e with reminded := true } :=
            (Option.some.inj he2).symm
          subst he2'
          exact ⟨fun _ => rfl,
            fun _ _ => ⟨t, htmem, by rw [httok], hti⟩⟩
        · rw [getEvent_markReminded_ne _ _ _ (fun h => hti h.symm), he] at he2
          exact no_flip_of_some_eq he2 _

/-- The row demoEv after a successful delivery. -/
def demoDelivered : Event := { demoEv with reminded := true }

theorem c3_reminded_once_witness :
    (demoEv.reminded = true → demoDelivered.reminded = true) ∧
    (demoEv.reminded = false → demoDelivered.reminded = true →
      ∃ t ∈ demoSched.active,
        Act.fire 0 true = Act.fire t.token true ∧ t.ev.id = 1) :=
  c3_reminded_once demoSched (Act.fire 0 true) 1 demoEv demoDelivered
    (by decide) (by decide)

/-!
Claim C4.
-/

theorem token_unique {l : List ActiveTimer}
    (h : l.Pairwise (fun a b => a.token ≠ b.token)) {t1 t2 : ActiveTimer}
    (h1 : t1 ∈ l) (h2 : t2 ∈ l) (he : t1.token = t2.token) : t1 = t2 := by
  by_contra hne
  exact (List.Pairwise.forall (fun x y hxy => Ne.symm hxy) h h1 h2 hne) he

theorem id_unique {db : List Event}
    (h : db.Pairwise (fun a b => a.id ≠ b.id)) {e1 e2 : Event}
    (h1 : e1 ∈ db) (h2 : e2 ∈ db) (he : e1.id = e2.id) : e1 = e2 := by
  by_contra hne
  exact (List.Pairwise.forall (fun x y hxy => Ne.symm hxy) h h1 h2 hne) he

/-- C4: in every reachable state there is at most one pending timer per
event id; and registering a second timer for the same id (both with a
future sendAt) cancels the first: afterwards the second timer is pending
and firing the first token is a no-op, so only the second fires. -/
theorem c4_one_timer_per_id :
    (∀ db0 : List Event, db0.Pairwise (fun a b => a.id ≠ b.id) →
      ∀ acts : List Act,
      ∀ t1 ∈ (runActs acts (startState db0)).active,
      ∀ t2 ∈ (runActs acts (startState db0)).active,
        t1.ev.id = t2.ev.id → t1 = t2) ∧
    (∀ (s : SysState) (now1 now2 : Int) (ev1 ev2 : Event),
      ev2.id = ev1.id →
      0 < sendAtOf ev1 - now1 → 0 < sendAtOf ev2 - now2 →
      (∀ t ∈ s.active, t.token < s.nextToken) →
      (⟨s.nextToken + 1, ev2, sendAtOf ev2⟩ : ActiveTimer) ∈
        (scheduleReminder now2 ev2 (scheduleReminder now1 ev1 s)).active ∧
      ∀ ok, fireTimer s.nextToken ok
          (scheduleReminder now2 ev2 (scheduleReminder now1 ev1 s)) =
        scheduleReminder now2 ev2 (scheduleReminder now1 ev1 s)) := by
  constructor
  · intro db0 hdist acts t1 h1 t2 h2 hid
    have hInv := inv_runActs (inv_startState hdist) acts
    have m1 := hInv.mapped t1 h1
    have m2 := hInv.mapped t2 h2
    rw [hid] at m1
    rw [m1] at m2
    exact token_unique hInv.tokDistinct h1 h2 (Option.some.inj m2)
  · intro s now1 now2 ev1 ev2 hid hp1 hp2 hfresh
    have hn1 : ¬ sendAtOf ev1 - now1 ≤ 0 := by omega
    have hn2 : ¬ sendAtOf ev2 - now2 ≤ 0 := by omega
    obtain ⟨rest1, heq1, hsub1, -⟩ := scheduleReminder_reg s hn1
    have ha1 : (scheduleReminder now1 ev1 s).active =
        ⟨s.nextToken, ev1, sendAtOf ev1⟩ :: rest1 := by
      rw [heq1]
    have hnt1 : (scheduleReminder now1 ev1 s).nextToken = s.nextToken + 1 := by
      rw [heq1]
    have hm1 : lookupTok (scheduleReminder now1 ev1 s).timersMap ev1.id =
        some s.nextToken := by
      rw [heq1]
      show lookupTok (setTok _ ev1.id s.nextToken) ev1.id = some s.nextToken
      rw [lookupTok_setTok, if_pos rfl]
    obtain ⟨rest2, heq2, hsub2, hclear2⟩ :=
      scheduleReminder_reg (scheduleReminder now1 ev1 s) hn2
    have ha2 : (scheduleReminder now2 ev2 (scheduleReminder now1 ev1 s)).active =
        ⟨(scheduleReminder now1 ev1 s).nextToken, ev2, sendAtOf ev2⟩ :: rest2 := by
      rw [heq2]
    have hmem2 : ∀ u ∈ rest2, u.token ≠ s.nextToken := by
      intro u hu
      have hu1 : u ∈ (scheduleReminder now1 ev1 s).active := hsub2.mem hu
      rw [ha1] at hu1
      rcases List.mem_cons.1 hu1 with rfl | hu1
      · intro _
        exact hclear2 _ hu hid.symm hm1
      · have := hfresh u (hsub1.mem hu1)
        omega
    constructor
    · rw [ha2, hnt1]
      exact List.mem_cons_self _ _
    · intro ok
      apply fireTimer_eq_none
      rw [List.find?_eq_none]
      intro u hu
      rw [ha2] at hu
      rcases List.mem_cons.1 hu with rfl | hu
      · show ¬ ((scheduleReminder now1 ev1 s).nextToken == s.nextToken) = true
        rw [hnt1]
        simp
      · have := hmem2 u hu
        simp [this]

theorem c4_one_timer_per_id_witness :
    (∀ t1 ∈ (runActs [Act.recover 0] (startState [demoEv])).active,
      ∀ t2 ∈ (runActs [Act.recover 0] (startState [demoEv])).active,
        t1.ev.id = t2.ev.id → t1 = t2) ∧
    ((⟨(startState []).nextToken + 1, demoEv, sendAtOf demoEv⟩ :
        ActiveTimer) ∈
      (scheduleReminder 0 demoEv
        (scheduleReminder 0 demoEv (startState []))).active ∧
    ∀ ok, fireTimer (startState []).nextToken ok
        (scheduleReminder 0 demoEv
          (scheduleReminder 0 demoEv (startState []))) =
      scheduleReminder 0 demoEv
        (scheduleReminder 0 demoEv (startState []))) :=
  ⟨c4_one_timer_per_id.1 [demoEv] (by decide) [Act.recover 0],
   c4_one_timer_per_id.2 (startState []) 0 0 demoEv demoEv rfl
     (by decide) (by decide) (by intro t ht; exact absurd ht (List.not_mem_nil t))⟩

/-!
Claim C5.
-/

/-- C5: deleting an event cancels its pending timer before the row is
removed: afterwards no timer for the id is pending and the row is gone, and
on any continuation that does not re-create that id (timers firing,
deletions, further Recovery passes) the number of sender calls for the id
stays exactly what it was before the deletion — the Sender is never invoked
for the deleted event. -/
theorem c5_delete_cancels (db0 : List Event)
    (hdist : db0.Pairwise (fun a b => a.id ≠ b.id))
    (acts1 : List Act) (i : Nat) (acts2 : List Act)
    (hacts2 : ∀ a ∈ acts2, notPostFor i a) :
    activeFor i (deleteEvent i (runActs acts1 (startState db0))) = [] ∧
    getEvent (deleteEvent i (runActs acts1 (startState db0))).db i = none ∧
    sentFor i (runActs acts2
        (deleteEvent i (runActs acts1 (startState db0)))) =
      sentFor i (runActs acts1 (startState db0)) := by
  set s := runActs acts1 (startState db0) with hs
  have hInv : Inv s := inv_runActs (inv_startState hdist) acts1
  have hact : activeFor i (deleteEvent i s) = [] := by
    rw [activeFor_eq_nil_iff]
    intro t ht hid
    have htmem := deleteEvent_active_sub ht
    have hmap := hInv.mapped t htmem
    rw [hid] at hmap
    cases hl : lookupTok s.timersMap i with
    | none =>
      rw [hl] at hmap
      exact Option.noConfusion hmap
    | some tok =>
      rw [hl] at hmap
      have htok : t.token = tok := (Option.some.inj hmap).symm
      rw [deleteEvent_eq_some hl] at ht
      have := (List.mem_filter.1 ht).2
      rw [htok] at this
      simp at this
  have hdbnone : getEvent (deleteEvent i s).db i = none := by
    rw [deleteEvent_db]
    exact getEvent_filter_out _ _
  obtain ⟨-, -, h3⟩ := run_gone_stable acts2 (deleteEvent i s) hact hdbnone hacts2
  refine ⟨hact, hdbnone, ?_⟩
  rw [h3]
  exact sentFor_sent_eq (deleteEvent_sent i s)

theorem c5_delete_cancels_witness :
    activeFor 1 (deleteEvent 1 (runActs [Act.recover 0]
      (startState [demoEv]))) = [] ∧
    getEvent (deleteEvent 1 (runActs [Act.recover 0]
      (startState [demoEv]))).db 1 = none ∧
    sentFor 1 (runActs [Act.fire 0 true, Act.recover 5]
        (deleteEvent 1 (runActs [Act.recover 0] (startState [demoEv])))) =
      sentFor 1 (runActs [Act.recover 0] (startState [demoEv])) :=
  c5_delete_cancels [demoEv] (by decide) [Act.recover 0] 1
    [Act.fire 0 true, Act.recover 5]
    (by
      intro a ha
      rcases List.mem_cons.1 ha with rfl | ha
      · exact trivial
      · rw [List.mem_singleton.1 ha]
        exact trivial)

/-!
Claim C6.
-/

/-- Acts available in a pure recovery scenario: recovery passes and timer
expiries, no HTTP creates or deletes. -/
def recoverOrFire (a : Act) : Prop :=
  match a with
  | .recover _ => True
  | .fire _ _ => True
  | _ => False

/-- One recovery-or-fire step keeps the per-event successful-delivery count
at most one, where a count of one is always backed by a stored row already
marked reminded (which recovery therefore skips). -/
theorem c6_step {i : Nat} {s : SysState} (hInv : Inv s) {a : Act}
    (ha : recoverOrFire a)
    (h1 : successFor i s ≤ 1)
    (h2 : 1 ≤ successFor i s → ∃ e ∈ s.db, e.id = i ∧ e.reminded = true) :
    successFor i (stepAct a s) ≤ 1 ∧
    (1 ≤ successFor i (stepAct a s) →
      ∃ e ∈ (stepAct a s).db, e.id = i ∧ e.reminded = true) := by
  cases a with
  | post r now => exact ha.elim
  | del j => exact ha.elim
  | recover now =>
    simp only [stepAct]
    rw [successFor_sent_eq (scheduleAllPending_sent now s),
      scheduleAllPending_db]
    exact ⟨h1, h2⟩
  | fire tok ok =>
    simp only [stepAct]
    cases hf : s.active.find? (fun t => t.token == tok) with
    | none =>
      rw [fireTimer_eq_none hf]
      exact ⟨h1, h2⟩
    | some t =>
      have htmem : t ∈ s.active := List.mem_of_find?_eq_some hf
      cases ok with
      | false =>
        rw [fireTimer_eq_false hf]
        have hsame : successFor i { s with
            active := s.active.filter (fun u => u.token != tok)
            sent := (t.ev.id, false) :: s.sent } = successFor i s := by
          simp [successFor, List.filter_cons]
        rw [hsame]
        exact ⟨h1, h2⟩
      | true =>
        rw [fireTimer_eq_true hf]
        by_cases hti : t.ev.id = i
        · obtain ⟨e2, he2, hid2, hrem2⟩ := hInv.backed t htmem
          have hzero : successFor i s = 0 := by
            by_contra hnz
            obtain ⟨e3, he3, hid3, hrem3⟩ :=
              h2 (Nat.one_le_iff_ne_zero.2 hnz)
            have he32 : e3 = e2 :=
              id_unique hInv.dbIds he3 he2 (by rw [hid3, hid2, hti])
            rw [he32, hrem2] at hrem3
            exact Bool.false_ne_true hrem3
          have hsucc : successFor i { s with
              active := s.active.filter (fun u => u.token != tok)
              sent := (t.ev.id, true) :: s.sent } = successFor i s + 1 := by
            simp [successFor, List.filter_cons, hti]
          have hsucc2 : successFor i
              { db := markReminded t.ev.id s.db,
                timersMap := delTok s.timersMap t.ev.id,
                active := s.active.filter (fun u => u.token != tok),
                sent := (t.ev.id, true) :: s.sent,
                nextToken := s.nextToken } = successFor i s + 1 := hsucc
          rw [hsucc2, hzero]
          refine ⟨by omega, fun _ => ?_⟩
          refine ⟨{ e2 with reminded := true }, ?_, hid2.trans hti, rfl⟩
          show _ ∈ markReminded t.ev.id s.db
          unfold markReminded
          have hmap := List.mem_map_of_mem
            (fun e => if e.id = t.ev.id then { e with reminded := true }
              else e) he2
          simpa [hid2] using hmap
        · have hsame : successFor i
              { db := markReminded t.ev.id s.db,
                timersMap := delTok s.timersMap t.ev.id,
                active := s.active.filter (fun u => u.token != tok),
                sent := (t.ev.id, true) :: s.sent,
                nextToken := s.nextToken } = successFor i s := by
            simp [successFor, List.filter_cons, hti]
          rw [hsame]
          refine ⟨h1, fun hle => ?_⟩
          obtain ⟨e3, he3, hid3, hrem3⟩ := h2 hle
          have hne : e3.id ≠ t.ev.id := by
            rw [hid3]
            exact fun h => hti h.symm
          refine ⟨if e3.id = t.ev.id then { e3 with reminded := true }
              else e3, ?_, ?_, ?_⟩
          · exact List.mem_map_of_mem _ he3
          · rw [if_neg hne]
            exact hid3
          · rw [if_neg hne]
            exact hrem3

theorem c6_run {i : Nat} (acts : List Act) :
    ∀ s : SysState, Inv s → (∀ a ∈ acts, recoverOrFire a) →
      successFor i s ≤ 1 →
      (1 ≤ successFor i s → ∃ e ∈ s.db, e.id = i ∧ e.reminded = true) →
      successFor i (runActs acts s) ≤ 1 := by
  induction acts with
  | nil => exact fun s _ _ h1 _ => h1
  | cons a acts ih =>
    intro s hInv hall h1 h2
    obtain ⟨g1, g2⟩ := c6_step hInv (hall a (List.mem_cons_self _ _)) h1 h2
    exact ih (stepAct a s) (inv_stepAct hInv a)
      (fun b hb => hall b (List.mem_cons_of_mem _ hb)) g1 g2

/-- C6: a recovery pass only schedules timers for events it reads back with
reminded = false (the `WHERE reminded = false` filter); and in any scenario
built purely of recovery passes and timer expiries — in particular Recovery
run twice in sequence — every event is successfully delivered at most
once. -/
theorem c6_recovery_idempotent :
    (∀ (now : Int) (s : SysState), ∀ t ∈ (scheduleAllPending now s).active,
      t ∉ s.active → t.ev.reminded = false) ∧
    (∀ db0 : List Event, db0.Pairwise (fun a b => a.id ≠ b.id) →
      ∀ acts : List Act, (∀ a ∈ acts, recoverOrFire a) →
      ∀ i, successFor i (runActs acts (startState db0)) ≤ 1) := by
  constructor
  · intro now s t ht hnot
    rcases foldl_sched_active_mem ht with ⟨e, he, hev, -⟩ | h
    · have := (List.mem_filter.1 he).2
      rw [hev]
      simpa using this
    · exact absurd h hnot
  · intro db0 hdist acts hall i
    refine c6_run acts (startState db0) (inv_startState hdist) hall ?_ ?_
    · show successFor i (startState db0) ≤ 1
      simp [successFor, startState]
    · intro h
      simp [successFor, startState] at h

theorem c6_recovery_idempotent_witness :
    demoEv.reminded = false ∧
    successFor 1 (runActs [Act.recover 0, Act.recover 0]
      (startState [demoEv])) ≤ 1 :=
  ⟨c6_recovery_idempotent.1 0 (startState [demoEv])
      ⟨0, demoEv, 3600000⟩ (by decide) (List.not_mem_nil _),
   c6_recovery_idempotent.2 [demoEv] (by decide)
     [Act.recover 0, Act.recover 0]
     (by
       intro a ha
       rcases List.mem_cons.1 ha with rfl | ha
       · exact trivial
       · rw [List.mem_singleton.1 ha]
         exact trivial)
     1⟩

end Chrono
